import Mathlib

/-!
# embedlog — a leveled structured logger facade

Shallow embedding of the `embedlog` structured-logging facade and proofs of
the specified properties. The repository ships only example call sites
(`examples/main.go`); the facade itself (`NewLogger`, `Print`, `Error`,
`Printf`, `Errorf`, `PrintOrErr`, `With`, `WithGroup`, rendering) is not in
the repository's files, so every definition of the facade below is modelled
from the spec's words (sections 3-7 of the spec), as marked in its doc
comment.
-/

namespace Embedlog

/-- Modelled from the spec: severity of a LogEvent (Info, Error or Debug);
the facade's own operations emit at Info and Error. -/
inductive Level where
  | info
  | error
  | debug
deriving DecidableEq, Repr

/-- Modelled from the spec: how a severity level is rendered. -/
def levelText : Level → String
  | Level.info => "INFO"
  | Level.error => "ERROR"
  | Level.debug => "DEBUG"

/-- Modelled from the spec: the placeholder the renderer emits when a
redaction projection itself errors (fail-safe, spec section 7). -/
def redactedPlaceholder : String := "(REDACTED)"

/-- Modelled from the spec: the sentinel value paired with an odd trailing
key of a variadic field list (spec section 4.1). -/
def missingSentinel : String := "(MISSING)"

/-- Modelled from the spec: a typed field value. `secret raw proj` is a
value implementing the redaction capability (the example's `Token.LogValue`):
`raw` is the sensitive content and `proj` its redaction projection, `none`
when the projection computation itself errors. `blob fallback ser` is a
value whose serialization `ser` may fail; `fallback` is its best-effort
string representation. -/
inductive Value where
  | str (s : String)
  | int (n : Int)
  | bool (b : Bool)
  | dur (ms : Nat)
  | secret (raw : String) (proj : Option String)
  | blob (fallback : String) (ser : Option String)
deriving DecidableEq, Repr

/-- Modelled from the spec: one key-value field of an event, tagged with the
group path (`WithGroup` names) under which it was attached. -/
structure Field where
  groups : List String
  key : String
  val : Value
deriving DecidableEq, Repr

/-- Modelled from the spec: one element of a variadic field list — a key
string or a field value. -/
inductive Arg where
  | k (s : String)
  | v (x : Value)
deriving DecidableEq, Repr

/-- Modelled from the spec: pairing of a variadic field list into key-value
fields. An odd trailing key is paired with the `(MISSING)` sentinel value; a
string in value position is a string value; a value in key position gets the
sentinel key. Never fails. -/
def pairFields : List Arg → List (String × Value)
  | [] => []
  | [Arg.k key] => [(key, Value.str missingSentinel)]
  | Arg.k key :: Arg.v x :: rest => (key, x) :: pairFields rest
  | Arg.k key :: Arg.k key2 :: rest => (key, Value.str key2) :: pairFields rest
  | Arg.v x :: rest => (missingSentinel, x) :: pairFields rest

/-- Modelled from the spec: an immutable log event — severity, creation
timestamp (abstracted to a number), message and the ordered field sequence. -/
structure Event where
  level : Level
  time : Nat
  msg : String
  fields : List Field
deriving DecidableEq, Repr

/-- Modelled from the spec: the sink. `closed` models a failed/closed
writer; `lines` are the whole records it has received, in order. -/
structure Sink where
  closed : Bool
  lines : List String
deriving DecidableEq, Repr

/-- Modelled from the spec: the internal, fallible sink write (spec error
taxonomy (c): a write on a closed output fails). -/
def sinkWrite (s : Sink) (line : String) : Except String Sink :=
  if s.closed then Except.error "write failed"
  else Except.ok ⟨s.closed, s.lines ++ [line]⟩

/-- Modelled from the spec: best-effort write — a write failure is swallowed
and never propagated to the caller. -/
def emitTo (s : Sink) (line : String) : Sink :=
  match sinkWrite s line with
  | Except.ok s2 => s2
  | Except.error _ => s

/-- Modelled from the spec: rendering of a field value in human-readable
mode. A redacting value renders its projection, or the placeholder when the
projection errors; an unserializable value renders its best-effort fallback. -/
def renderValue : Value → String
  | Value.str s => s
  | Value.int n => toString n
  | Value.bool b => if b then "true" else "false"
  | Value.dur ms => toString ms ++ "ms"
  | Value.secret _ (some p) => p
  | Value.secret _ none => redactedPlaceholder
  | Value.blob _ (some s) => s
  | Value.blob fb none => fb

/-- Modelled from the spec: human mode quotes values containing whitespace. -/
def quoteIfSpace (s : String) : String :=
  if s.data.any (fun c => c = ' ') then "\"" ++ s ++ "\"" else s

/-- Modelled from the spec: a group path joined onto a key with dots (the
text-mode prefixed-key namespacing of `WithGroup`). -/
def dotJoin : List String → String → String
  | [], key => key
  | g :: gs, key => g ++ "." ++ dotJoin gs key

/-- Modelled from the spec: the rendered key of a field in text mode. -/
def fieldKeyText (f : Field) : String :=
  dotJoin f.groups f.key

/-- Modelled from the spec: one `key=value` pair in text mode. -/
def renderFieldText (f : Field) : String :=
  fieldKeyText f ++ "=" ++ quoteIfSpace (renderValue f.val)

/-- Modelled from the spec: the blank-separated field tail of a text line. -/
def textFields : List Field → String
  | [] => ""
  | f :: fs => " " ++ renderFieldText f ++ textFields fs

/-- Modelled from the spec: the human-readable line
`LEVEL TIMESTAMP MESSAGE key1=value1 key2=value2 ...`. -/
def renderTextLine (e : Event) : String :=
  levelText e.level ++ " " ++ toString e.time ++ " " ++ e.msg ++ textFields e.fields

/-- JSON values, used to state that JSON-mode output is syntactically valid. -/
inductive Json where
  | str (s : String)
  | num (n : Int)
  | bool (b : Bool)
  | obj (members : List (String × Json))
deriving Repr

/-- Escaping of quotes and backslashes, character by character. -/
def escapeChars : List Char → String
  | [] => ""
  | c :: cs =>
      (if c = '"' then "\\\"" else if c = '\\' then "\\\\" else String.singleton c)
        ++ escapeChars cs

/-- Escaping of quotes and backslashes inside a JSON string literal. -/
def escapeString (s : String) : String :=
  escapeChars s.data

/-- A JSON string literal. -/
def jsonString (s : String) : String := "\"" ++ escapeString s ++ "\""

mutual

/-- Serialization of a JSON value. -/
def Json.render : Json → String
  | Json.str s => jsonString s
  | Json.num n => toString n
  | Json.bool b => if b then "true" else "false"
  | Json.obj ms => "\x7b" ++ Json.renderMembers ms ++ "\x7d"

/-- Serialization of the comma-separated members of a JSON object. -/
def Json.renderMembers : List (String × Json) → String
  | [] => ""
  | [(key, j)] => jsonString key ++ ":" ++ Json.render j
  | (key, j) :: ms => jsonString key ++ ":" ++ Json.render j ++ "," ++ Json.renderMembers ms

end

/-- Modelled from the spec: the JSON value of a field value (redaction
applied exactly as in text mode; scalars stay typed, everything else is a
string). -/
def jsonValue : Value → Json
  | Value.str s => Json.str s
  | Value.int n => Json.num n
  | Value.bool b => Json.bool b
  | Value.dur ms => Json.str (toString ms ++ "ms")
  | Value.secret _ (some p) => Json.str p
  | Value.secret _ none => Json.str redactedPlaceholder
  | Value.blob _ (some s) => Json.str s
  | Value.blob fb none => Json.str fb

/-- Modelled from the spec: a field nested under its group path — a nested
object per group name in JSON mode. -/
def nestMember : List String → String → Json → String × Json
  | [], key, j => (key, j)
  | g :: gs, key, j => (g, Json.obj [nestMember gs key j])

/-- Modelled from the spec: the JSON object member one field contributes. -/
def memberOfField (f : Field) : String × Json :=
  nestMember f.groups f.key (jsonValue f.val)

/-- Modelled from the spec: the members of the event's JSON object, in the
fixed top-level shape `time, level, msg, ...fields`. -/
def eventMembers (e : Event) : List (String × Json) :=
  ("time", Json.str (toString e.time)) :: ("level", Json.str (levelText e.level)) ::
    ("msg", Json.str e.msg) :: e.fields.map memberOfField

/-- Modelled from the spec: direct string serialization of a scalar field
value in JSON mode. -/
def renderScalar (v : Value) : String :=
  match v with
  | Value.int n => toString n
  | Value.bool b => if b then "true" else "false"
  | _ => jsonString (renderValue v)

/-- Modelled from the spec: direct string serialization of one field member,
nesting one object per group name. -/
def renderMemberDirect : List String → String → Value → String
  | [], key, v => jsonString key ++ ":" ++ renderScalar v
  | g :: gs, key, v => jsonString g ++ ":" ++ "\x7b" ++ renderMemberDirect gs key v ++ "\x7d"

/-- Modelled from the spec: the comma-led field tail of a JSON line. -/
def fieldsDirect : List Field → String
  | [] => ""
  | f :: fs => "," ++ renderMemberDirect f.groups f.key f.val ++ fieldsDirect fs

/-- Modelled from the spec: the JSON-mode line, built by direct string
concatenation with the fixed `time, level, msg` head. -/
def renderJsonLine (e : Event) : String :=
  "\x7b" ++ jsonString "time" ++ ":" ++ jsonString (toString e.time) ++ ","
    ++ jsonString "level" ++ ":" ++ jsonString (levelText e.level) ++ ","
    ++ jsonString "msg" ++ ":" ++ jsonString e.msg ++ fieldsDirect e.fields ++ "\x7d"

/-- Modelled from the spec: rendering of one event according to the format
flag. -/
def renderEvent (json : Bool) (e : Event) : String :=
  if json then renderJsonLine e else renderTextLine e

/-- Modelled from the spec: a logger — immutable configuration (verbose and
format flags), the open group path, and the accumulated FieldSet. -/
structure Logger where
  verbose : Bool
  json : Bool
  groups : List String
  fields : List Field
deriving DecidableEq, Repr

/-- Modelled from the spec: `NewLogger(verbose, json)` — a root logger with
an empty FieldSet. -/
def NewLogger (verbose json : Bool) : Logger := ⟨verbose, json, [], []⟩

/-- Modelled from the spec: `NewDevLogger()` — the development preset:
human-readable and verbose. -/
def NewDevLogger : Logger := ⟨true, false, [], []⟩

/-- Modelled from the spec: the fields a call's variadic list contributes,
tagged with the logger's open group path. -/
def Logger.callFields (l : Logger) (args : List Arg) : List Field :=
  (pairFields args).map (fun p => ⟨l.groups, p.1, p.2⟩)

/-- Modelled from the spec: the event one emission builds — the logger's
accumulated fields followed by the call's fields, in insertion order. -/
def Logger.mkEvent (l : Logger) (lvl : Level) (time : Nat) (msg : String)
    (args : List Arg) : Event :=
  ⟨lvl, time, msg, l.fields ++ l.callFields args⟩

/-- Modelled from the spec: `With(fields...)` — a new logger whose FieldSet
is the concatenation of the parent's fields and the new ones; the parent is
not changed. -/
def Logger.With (l : Logger) (args : List Arg) : Logger :=
  { l with fields := l.fields ++ l.callFields args }

/-- Modelled from the spec: `WithGroup(name)` — a new logger namespacing
subsequently attached fields under `name`. -/
def Logger.WithGroup (l : Logger) (g : String) : Logger :=
  { l with groups := l.groups ++ [g] }

/-- Modelled from the spec: `Print(ctx, message, fields...)` — an Info-level
emission, a no-op that does not touch the sink when verbose is false. -/
def Logger.Print (l : Logger) (time : Nat) (msg : String) (args : List Arg)
    (s : Sink) : Sink :=
  if l.verbose then emitTo s (renderEvent l.json (l.mkEvent Level.info time msg args)) else s

/-- Modelled from the spec: `Error(ctx, message, fields...)` — an
Error-level emission regardless of the verbose flag. -/
def Logger.Error (l : Logger) (time : Nat) (msg : String) (args : List Arg)
    (s : Sink) : Sink :=
  emitTo s (renderEvent l.json (l.mkEvent Level.error time msg args))

/-- Modelled from the spec: positional substitution of `%v` verbs by the
argument list, in order. -/
def sprintfChars : List Char → List String → String
  | [], _ => ""
  | '%' :: 'v' :: rest, a :: as => a ++ sprintfChars rest as
  | c :: rest, as => String.singleton c ++ sprintfChars rest as

/-- Modelled from the spec: `Sprintf`-style positional formatting. -/
def sprintf (format : String) (args : List String) : String :=
  sprintfChars format.data args

/-- Modelled from the spec: `Printf(format, args...)` — one Info-level event
whose message is the formatted string, with no fields attached by the call;
the same verbosity rule as Print. -/
def Logger.Printf (l : Logger) (time : Nat) (format : String)
    (args : List String) (s : Sink) : Sink :=
  if l.verbose then
    emitTo s (renderEvent l.json ⟨Level.info, time, sprintf format args, l.fields⟩)
  else s

/-- Modelled from the spec: `Errorf(format, args...)` — one Error-level
event whose message is the formatted string, emitted unconditionally. -/
def Logger.Errorf (l : Logger) (time : Nat) (format : String)
    (args : List String) (s : Sink) : Sink :=
  emitTo s (renderEvent l.json ⟨Level.error, time, sprintf format args, l.fields⟩)

/-- Modelled from the spec: `PrintOrErr(ctx, message, err, fields...)` — on
a non-nil error, an Error-level emission carrying only the `err` field (the
supplied fields are dropped); on a nil error, a Print of the supplied
fields. -/
def Logger.PrintOrErr (l : Logger) (time : Nat) (msg : String)
    (err : Option String) (args : List Arg) (s : Sink) : Sink :=
  match err with
  | some e => l.Error time msg [Arg.k "err", Arg.v (Value.str e)] s
  | none => l.Print time msg args s

/-- A well-formed (even) variadic list: pairs flattened back into keys and
values, alternately. -/
def flatArgs : List (String × Value) → List Arg
  | [] => []
  | (key, x) :: ps => Arg.k key :: Arg.v x :: flatArgs ps

/-- The same value with its raw secret content (if any) replaced by `r`; the
redaction projection is kept. Used to state that rendering never depends on
the raw content of a redacting value. -/
def Value.setRaw (r : String) : Value → Value
  | Value.secret _ proj => Value.secret r proj
  | v => v

/-- The same field with its raw secret content replaced by `r`. -/
def Field.setRaw (r : String) (f : Field) : Field :=
  ⟨f.groups, f.key, f.val.setRaw r⟩

/-- The same event with every field's raw secret content replaced by `r`. -/
def Event.setRaw (r : String) (e : Event) : Event :=
  ⟨e.level, e.time, e.msg, e.fields.map (Field.setRaw r)⟩

/-- Bool-valued substring test: `sub` occurs contiguously inside `s`. -/
def containsSub (s sub : String) : Bool :=
  (List.range (s.length + 1)).any (fun i => sub.data.isPrefixOf (s.data.drop i))

/-- The serialized form of one JSON object member. -/
def renderMemberAst (m : String × Json) : String :=
  jsonString m.1 ++ ":" ++ Json.render m.2

/-! ## Basic lemmas about the sink and field pairing -/

/-- Writing to an open sink appends exactly one whole record. -/
theorem emitTo_open (lines : List String) (line : String) :
    emitTo ⟨false, lines⟩ line = ⟨false, lines ++ [line]⟩ := rfl

/-- Writing to a closed sink leaves it untouched and raises nothing. -/
theorem emitTo_closed (lines : List String) (line : String) :
    emitTo ⟨true, lines⟩ line = ⟨true, lines⟩ := rfl

/-- A write either fails silently or appends exactly one whole record. -/
theorem emitTo_lines_cases (s : Sink) (line : String) :
    (emitTo s line).lines = s.lines ∨ (emitTo s line).lines = s.lines ++ [line] := by
  cases s with
  | mk c ls => cases c <;> simp [emitTo, sinkWrite]

/-- A write never changes the closed flag. -/
theorem emitTo_closed_eq (s : Sink) (line : String) :
    (emitTo s line).closed = s.closed := by
  cases s with
  | mk c ls => cases c <;> simp [emitTo, sinkWrite]

/-- Pairing an even variadic list recovers the pairs. -/
theorem pairFields_flatArgs (ps : List (String × Value)) :
    pairFields (flatArgs ps) = ps := by
  induction ps with
  | nil => rfl
  | cons p ps ih => cases p with | mk a b => simp [flatArgs, pairFields, ih]

/-- Pairing an even variadic list with an odd trailing key pairs the key
with the `(MISSING)` sentinel. -/
theorem pairFields_flatArgs_key (ps : List (String × Value)) (key : String) :
    pairFields (flatArgs ps ++ [Arg.k key]) = ps ++ [(key, Value.str missingSentinel)] := by
  induction ps with
  | nil => rfl
  | cons p ps ih => cases p with | mk a b => simp [flatArgs, pairFields, ih]

/-! ## Redaction: rendering never looks at the raw content -/

/-- The text rendering of a value is unchanged when its raw secret content
changes. -/
theorem renderValue_setRaw (r r' : String) (v : Value) :
    renderValue (v.setRaw r) = renderValue (v.setRaw r') := by
  cases v <;> try rfl
  case secret raw proj => cases proj <;> rfl

/-- The JSON value of a field value is unchanged when its raw secret content
changes. -/
theorem jsonValue_setRaw (r r' : String) (v : Value) :
    jsonValue (v.setRaw r) = jsonValue (v.setRaw r') := by
  cases v <;> try rfl
  case secret raw proj => cases proj <;> rfl

/-- The JSON scalar rendering of a value is unchanged when its raw secret
content changes. -/
theorem renderScalar_setRaw (r r' : String) (v : Value) :
    renderScalar (v.setRaw r) = renderScalar (v.setRaw r') := by
  cases v <;> try rfl
  case secret raw proj => cases proj <;> rfl

/-- One text-mode `key=value` pair is unchanged when the raw secret content
changes. -/
theorem renderFieldText_setRaw (r r' : String) (f : Field) :
    renderFieldText (f.setRaw r) = renderFieldText (f.setRaw r') := by
  simp [renderFieldText, Field.setRaw, fieldKeyText, renderValue_setRaw r r' f.val]

/-- The text-mode field tail is unchanged when the raw secret content
changes. -/
theorem textFields_setRaw (r r' : String) (fs : List Field) :
    textFields (fs.map (Field.setRaw r)) = textFields (fs.map (Field.setRaw r')) := by
  induction fs with
  | nil => rfl
  | cons f fs ih => simp [textFields, ih, renderFieldText_setRaw r r' f]

/-- One JSON-mode member is unchanged when the raw secret content changes. -/
theorem renderMemberDirect_setRaw (r r' : String) (gs : List String) (key : String) (v : Value) :
    renderMemberDirect gs key (v.setRaw r) = renderMemberDirect gs key (v.setRaw r') := by
  induction gs with
  | nil => simp [renderMemberDirect, renderScalar_setRaw r r' v]
  | cons g gs ih => simp [renderMemberDirect, ih]

/-- The JSON-mode field tail is unchanged when the raw secret content
changes. -/
theorem fieldsDirect_setRaw (r r' : String) (fs : List Field) :
    fieldsDirect (fs.map (Field.setRaw r)) = fieldsDirect (fs.map (Field.setRaw r')) := by
  induction fs with
  | nil => rfl
  | cons f fs ih => simp [fieldsDirect, Field.setRaw, ih, renderMemberDirect_setRaw r r' f.groups f.key f.val]

/-- The rendered event, in either format, is unchanged when the raw secret
content of its fields changes. -/
theorem renderEvent_setRaw (json : Bool) (r r' : String) (e : Event) :
    renderEvent json (e.setRaw r) = renderEvent json (e.setRaw r') := by
  cases json <;>
    simp [renderEvent, Event.setRaw, renderTextLine, renderJsonLine,
      textFields_setRaw r r' e.fields, fieldsDirect_setRaw r r' e.fields]

/-! ## JSON mode refines serialization of a JSON object -/

/-- The scalar rendering of a value is the serialization of its JSON value. -/
theorem renderScalar_eq_render (v : Value) :
    renderScalar v = Json.render (jsonValue v) := by
  cases v <;> try (simp [renderScalar, jsonValue, renderValue, Json.render])
  case secret raw proj =>
    cases proj <;> simp [renderScalar, jsonValue, renderValue, Json.render]
  case blob fb ser =>
    cases ser <;> simp [renderScalar, jsonValue, renderValue, Json.render]

/-- Serialization of a one-member object list. -/
theorem renderMembers_singleton (m : String × Json) :
    Json.renderMembers [m] = renderMemberAst m := by
  cases m with | mk k j => simp [Json.renderMembers, renderMemberAst]

/-- Serialization of an object list with at least two members. -/
theorem renderMembers_cons (m m2 : String × Json) (ms : List (String × Json)) :
    Json.renderMembers (m :: m2 :: ms)
      = renderMemberAst m ++ "," ++ Json.renderMembers (m2 :: ms) := by
  cases m with
  | mk k j =>
      cases m2 with
      | mk k2 j2 => simp [Json.renderMembers, renderMemberAst, String.append_assoc]

/-- The direct member rendering is the serialization of the nested member. -/
theorem renderMemberDirect_eq (gs : List String) (key : String) (v : Value) :
    renderMemberDirect gs key v = renderMemberAst (nestMember gs key (jsonValue v)) := by
  induction gs with
  | nil => simp [renderMemberDirect, renderMemberAst, nestMember, renderScalar_eq_render]
  | cons g gs ih =>
      simp only [renderMemberDirect, renderMemberAst, nestMember, Json.render,
        renderMembers_singleton, ih, String.append_assoc]

/-- The serialization of a member followed by field members is the member
followed by the direct field tail. -/
theorem renderMembers_cons_map (m : String × Json) (fs : List Field) :
    Json.renderMembers (m :: fs.map memberOfField) = renderMemberAst m ++ fieldsDirect fs := by
  induction fs generalizing m with
  | nil => simp [fieldsDirect, renderMembers_singleton]
  | cons f fs ih =>
      simp [fieldsDirect, renderMembers_cons, ih, renderMemberDirect_eq,
        memberOfField, String.append_assoc]

/-- The JSON-mode line is exactly the serialization of one JSON object with
the event's members. -/
theorem renderJsonLine_eq_render (e : Event) :
    renderJsonLine e = Json.render (Json.obj (eventMembers e)) := by
  simp [renderJsonLine, eventMembers, Json.render, renderMembers_cons,
    renderMembers_cons_map, renderMemberAst, String.append_assoc]

/-! ## The claims -/

/-- Claim C1: `PrintOrErr` with a non-nil error emits an Error-level event
whose fields are the logger's fields plus one `err` field carrying the
error's description, and the supplied fields are dropped (the result does
not depend on them at all); with a nil error it behaves as `Print`: with
verbose=true it emits an Info-level event carrying the supplied fields, and
with verbose=false it emits nothing. -/
theorem printOrErr_spec (l : Logger) (j : Bool) (gs : List String)
    (fs : List Field) (t : Nat) (m e : String) (args args' : List Arg)
    (s : Sink) (lines : List String) :
    (l.PrintOrErr t m (some e) args ⟨false, lines⟩).lines
        = lines ++ [renderEvent l.json
            ⟨Level.error, t, m, l.fields ++ [⟨l.groups, "err", Value.str e⟩]⟩]
      ∧ l.PrintOrErr t m (some e) args s = l.PrintOrErr t m (some e) args' s
      ∧ l.PrintOrErr t m none args s = l.Print t m args s
      ∧ ((⟨true, j, gs, fs⟩ : Logger).PrintOrErr t m none args ⟨false, lines⟩).lines
          = lines ++ [renderEvent j
              ⟨Level.info, t, m, fs ++ (pairFields args).map (fun p => ⟨gs, p.1, p.2⟩)⟩]
      ∧ (⟨false, j, gs, fs⟩ : Logger).PrintOrErr t m none args s = s := by
  refine ⟨?_, rfl, rfl, ?_, ?_⟩ <;>
    simp [Logger.PrintOrErr, Logger.Error, Logger.Print, Logger.mkEvent,
      Logger.callFields, pairFields, emitTo_open]

/-- Claim C2 counterexample: a redacting field value whose raw content is
the string "INFO" — the human-mode output of a verbose emission carrying it
does contain the raw content as a substring (the severity text coincides
with it), so the rendered output can contain the raw value's substring even
though the renderer printed only the projection. -/
theorem redaction_raw_cex :
    containsSub
        (((NewLogger true false).Print 0 "start"
            [Arg.k "token", Arg.v (Value.secret "INFO" (some "REDACTED_TOKEN"))]
            ⟨false, []⟩).lines.headD "")
        "INFO" = true := by decide

/-- Claim C2 (amended): the rendered output of any emission depends only on
the redaction projection of a redacting field value, never on its raw
content, in both human and JSON formats — so the raw content reaches the
output only if the fully redacted rendering already contains that string —
and a value whose projection itself errors renders as the redaction
placeholder, never the raw value. -/
theorem redaction_noninterference (json : Bool) (e : Event) (r r' raw p : String) :
    renderEvent json (e.setRaw r) = renderEvent json (e.setRaw r')
      ∧ renderValue (Value.secret raw none) = redactedPlaceholder
      ∧ jsonValue (Value.secret raw none) = Json.str redactedPlaceholder
      ∧ renderValue (Value.secret raw (some p)) = p
      ∧ jsonValue (Value.secret raw (some p)) = Json.str p :=
  ⟨renderEvent_setRaw json r r' e, rfl, rfl, rfl, rfl⟩

/-- Claim C3: with verbose=false every `Print` and `Printf` call is a no-op
that leaves the sink untouched, while `Error` and `Errorf` always append
their rendered event, whatever the verbose flag. -/
theorem verbose_gate_spec (vb j : Bool) (gs : List String) (fs : List Field)
    (t : Nat) (m fmt : String) (args : List Arg) (fargs : List String)
    (s : Sink) (lines : List String) :
    (⟨false, j, gs, fs⟩ : Logger).Print t m args s = s
      ∧ (⟨false, j, gs, fs⟩ : Logger).Printf t fmt fargs s = s
      ∧ ((⟨vb, j, gs, fs⟩ : Logger).Error t m args ⟨false, lines⟩).lines
          = lines ++ [renderEvent j (Logger.mkEvent ⟨vb, j, gs, fs⟩ Level.error t m args)]
      ∧ ((⟨vb, j, gs, fs⟩ : Logger).Errorf t fmt fargs ⟨false, lines⟩).lines
          = lines ++ [renderEvent j ⟨Level.error, t, sprintf fmt fargs, fs⟩] := by
  refine ⟨?_, ?_, ?_, ?_⟩ <;>
    simp [Logger.Print, Logger.Printf, Logger.Error, Logger.Errorf, emitTo_open]

/-- Claim C4: `With(a,b).With(c,d)` yields a logger whose FieldSet is the
parent's fields concatenated with `[a=b, c=d]` in insertion order; every
event built from it carries those fields, in that order, before any call
fields; the intermediate logger's FieldSet is the parent's plus `[a=b]`
(derivation copies, the parent FieldSet reappears untouched as the prefix);
and configuration is shared. -/
theorem with_concat_spec (l : Logger) (a c : String) (b d : Value)
    (lvl : Level) (t : Nat) (m : String) (args : List Arg) :
    ((l.With [Arg.k a, Arg.v b]).With [Arg.k c, Arg.v d]).fields
        = l.fields ++ [⟨l.groups, a, b⟩, ⟨l.groups, c, d⟩]
      ∧ (((l.With [Arg.k a, Arg.v b]).With [Arg.k c, Arg.v d]).mkEvent lvl t m args).fields
          = l.fields ++ [⟨l.groups, a, b⟩, ⟨l.groups, c, d⟩]
              ++ (pairFields args).map (fun p => ⟨l.groups, p.1, p.2⟩)
      ∧ (l.With [Arg.k a, Arg.v b]).fields = l.fields ++ [⟨l.groups, a, b⟩]
      ∧ ((l.With [Arg.k a, Arg.v b]).With [Arg.k c, Arg.v d]).verbose = l.verbose
      ∧ ((l.With [Arg.k a, Arg.v b]).With [Arg.k c, Arg.v d]).json = l.json := by
  refine ⟨?_, ?_, ?_, rfl, rfl⟩ <;>
    simp [Logger.With, Logger.mkEvent, Logger.callFields, pairFields]

/-- Claim C5: a field attached after `WithGroup(g)` is recorded under the
extended group path while fields attached before keep their original path
and position; in text mode the grouped key renders as `g.x`, distinct from
a root-level `x`; in JSON mode the grouped field becomes a member nested
under `g`, distinct from any root-level member `x`. -/
theorem withGroup_namespace_spec (l : Logger) (g x : String) (v w : Value) :
    ((l.WithGroup g).With [Arg.k x, Arg.v v]).fields = l.fields ++ [⟨l.groups ++ [g], x, v⟩]
      ∧ ((l.WithGroup g).With [Arg.k x, Arg.v v]).groups = l.groups ++ [g]
      ∧ fieldKeyText ⟨[g], x, v⟩ = g ++ "." ++ x
      ∧ fieldKeyText ⟨[g], x, v⟩ ≠ fieldKeyText ⟨[], x, w⟩
      ∧ memberOfField ⟨[g], x, v⟩ = (g, Json.obj [(x, jsonValue v)])
      ∧ memberOfField ⟨[g], x, v⟩ ≠ memberOfField ⟨[], x, w⟩ := by
  refine ⟨?_, rfl, rfl, ?_, rfl, ?_⟩
  · simp [Logger.WithGroup, Logger.With, Logger.callFields, pairFields]
  · intro h
    have hl := congrArg String.length h
    have hdot : ("." : String).length = 1 := rfl
    simp [fieldKeyText, dotJoin, String.length_append, hdot] at hl
  · intro h
    have h2 := congrArg Prod.snd h
    cases w with
    | str s => exact Json.noConfusion h2
    | int n => exact Json.noConfusion h2
    | bool b => exact Json.noConfusion h2
    | dur ms => exact Json.noConfusion h2
    | secret raw proj => cases proj <;> exact Json.noConfusion h2
    | blob fb ser => cases ser <;> exact Json.noConfusion h2

/-- Claim C6: a variadic field list with an odd trailing key does not fail:
the trailing key is paired with the `(MISSING)` sentinel value and `Print`
(verbose), `Error` and `PrintOrErr` each still emit exactly one event. -/
theorem odd_fields_sentinel_spec (ps : List (String × Value)) (key : String)
    (vb j : Bool) (gs : List String) (fs : List Field) (l : Logger)
    (t : Nat) (m e : String) (lines : List String) :
    pairFields (flatArgs ps ++ [Arg.k key]) = ps ++ [(key, Value.str missingSentinel)]
      ∧ (⟨true, j, gs, fs⟩ : Logger).Print t m (flatArgs ps ++ [Arg.k key]) ⟨false, lines⟩
          = ⟨false, lines ++ [renderEvent j
              (Logger.mkEvent ⟨true, j, gs, fs⟩ Level.info t m (flatArgs ps ++ [Arg.k key]))]⟩
      ∧ (⟨vb, j, gs, fs⟩ : Logger).Error t m (flatArgs ps ++ [Arg.k key]) ⟨false, lines⟩
          = ⟨false, lines ++ [renderEvent j
              (Logger.mkEvent ⟨vb, j, gs, fs⟩ Level.error t m (flatArgs ps ++ [Arg.k key]))]⟩
      ∧ l.PrintOrErr t m (some e) (flatArgs ps ++ [Arg.k key]) ⟨false, lines⟩
          = ⟨false, lines ++ [renderEvent l.json
              (l.mkEvent Level.error t m [Arg.k "err", Arg.v (Value.str e)])]⟩ := by
  refine ⟨pairFields_flatArgs_key ps key, ?_, ?_, ?_⟩ <;>
    simp [Logger.Print, Logger.Error, Logger.PrintOrErr, emitTo_open]

/-- Claim C7: every emission of a JSON-mode logger appends exactly one
record that is the serialization of one JSON object whose member keys start
with `time`, `level`, `msg` followed by the field members — so the record
parses back to a mapping containing at least those three keys. -/
theorem json_shape_spec (vb : Bool) (gs : List String) (fs : List Field)
    (t : Nat) (m : String) (args : List Arg) (lines : List String) :
    ((⟨vb, true, gs, fs⟩ : Logger).Error t m args ⟨false, lines⟩).lines
        = lines ++ [Json.render (Json.obj (eventMembers
            (Logger.mkEvent ⟨vb, true, gs, fs⟩ Level.error t m args)))]
      ∧ ((⟨true, true, gs, fs⟩ : Logger).Print t m args ⟨false, lines⟩).lines
          = lines ++ [Json.render (Json.obj (eventMembers
              (Logger.mkEvent ⟨true, true, gs, fs⟩ Level.info t m args)))]
      ∧ (eventMembers (Logger.mkEvent ⟨vb, true, gs, fs⟩ Level.error t m args)).map Prod.fst
          = "time" :: "level" :: "msg"
              :: (Logger.mkEvent ⟨vb, true, gs, fs⟩ Level.error t m args).fields.map
                  (fun f => (memberOfField f).1)
      ∧ "time" ∈ (eventMembers (Logger.mkEvent ⟨vb, true, gs, fs⟩ Level.error t m args)).map Prod.fst
      ∧ "level" ∈ (eventMembers (Logger.mkEvent ⟨vb, true, gs, fs⟩ Level.error t m args)).map Prod.fst
      ∧ "msg" ∈ (eventMembers (Logger.mkEvent ⟨vb, true, gs, fs⟩ Level.error t m args)).map Prod.fst := by
  refine ⟨?_, ?_, ?_, ?_, ?_, ?_⟩ <;>
    simp [Logger.Error, Logger.Print, emitTo_open, renderEvent,
      renderJsonLine_eq_render, eventMembers]

/-- Claim C8: the public operations are total and never propagate a failure:
each emission leaves the closed flag alone and either appends exactly one
whole record or (on a failed write or a suppressed call) leaves the sink's
records untouched; an unserializable value degrades to its best-effort
string; an odd field list degrades to the sentinel; a write on a closed sink
is swallowed, returning the sink unchanged. -/
theorem no_failure_spec (l : Logger) (t : Nat) (m fmt key fb : String)
    (args : List Arg) (fargs : List String) (err : Option String)
    (s : Sink) (lines : List String) :
    ((l.Print t m args s).closed = s.closed
        ∧ ((l.Print t m args s).lines = s.lines
            ∨ ∃ r, (l.Print t m args s).lines = s.lines ++ [r]))
      ∧ ((l.Error t m args s).closed = s.closed
          ∧ ((l.Error t m args s).lines = s.lines
              ∨ ∃ r, (l.Error t m args s).lines = s.lines ++ [r]))
      ∧ ((l.PrintOrErr t m err args s).closed = s.closed
          ∧ ((l.PrintOrErr t m err args s).lines = s.lines
              ∨ ∃ r, (l.PrintOrErr t m err args s).lines = s.lines ++ [r]))
      ∧ ((l.Printf t fmt fargs s).closed = s.closed
          ∧ ((l.Printf t fmt fargs s).lines = s.lines
              ∨ ∃ r, (l.Printf t fmt fargs s).lines = s.lines ++ [r]))
      ∧ ((l.Errorf t fmt fargs s).closed = s.closed
          ∧ ((l.Errorf t fmt fargs s).lines = s.lines
              ∨ ∃ r, (l.Errorf t fmt fargs s).lines = s.lines ++ [r]))
      ∧ renderValue (Value.blob fb none) = fb
      ∧ pairFields [Arg.k key] = [(key, Value.str missingSentinel)]
      ∧ l.Error t m args ⟨true, lines⟩ = ⟨true, lines⟩ := by
  have hl : ∀ line, (emitTo s line).lines = s.lines ∨ ∃ r, (emitTo s line).lines = s.lines ++ [r] :=
    fun line => (emitTo_lines_cases s line).imp id (fun h => ⟨line, h⟩)
  refine ⟨⟨?_, ?_⟩, ⟨?_, ?_⟩, ⟨?_, ?_⟩, ⟨?_, ?_⟩, ⟨?_, ?_⟩, rfl, rfl, ?_⟩
  · cases hv : l.verbose <;> simp [Logger.Print, hv, emitTo_closed_eq]
  · cases hv : l.verbose
    · simp [Logger.Print, hv]
    · simpa [Logger.Print, hv] using hl _
  · simp [Logger.Error, emitTo_closed_eq]
  · simpa [Logger.Error] using hl _
  · cases err with
    | some e => simp [Logger.PrintOrErr, Logger.Error, emitTo_closed_eq]
    | none => cases hv : l.verbose <;> simp [Logger.PrintOrErr, Logger.Print, hv, emitTo_closed_eq]
  · cases err with
    | some e => simpa [Logger.PrintOrErr, Logger.Error] using hl _
    | none =>
        cases hv : l.verbose
        · simp [Logger.PrintOrErr, Logger.Print, hv]
        · simpa [Logger.PrintOrErr, Logger.Print, hv] using hl _
  · cases hv : l.verbose <;> simp [Logger.Printf, hv, emitTo_closed_eq]
  · cases hv : l.verbose
    · simp [Logger.Printf, hv]
    · simpa [Logger.Printf, hv] using hl _
  · simp [Logger.Errorf, emitTo_closed_eq]
  · simpa [Logger.Errorf] using hl _
  · simp [Logger.Error, emitTo_closed]

/-- Claim C9: `Printf` emits exactly one Info-level event whose whole
message content is the positionally formatted string and which carries no
key-value fields, and is suppressed when verbose is false; `Errorf` emits
the corresponding Error-level event unconditionally; a leading `%v` verb is
substituted by the first argument. -/
theorem printf_spec (vb j : Bool) (t : Nat) (fmt x : String) (a : List String)
    (s : Sink) (lines : List String) :
    ((NewLogger true j).Printf t fmt a ⟨false, lines⟩).lines
        = lines ++ [renderEvent j ⟨Level.info, t, sprintf fmt a, []⟩]
      ∧ (NewLogger false j).Printf t fmt a s = s
      ∧ ((NewLogger vb j).Errorf t fmt a ⟨false, lines⟩).lines
          = lines ++ [renderEvent j ⟨Level.error, t, sprintf fmt a, []⟩]
      ∧ sprintf ("%v" ++ fmt) (x :: a) = x ++ sprintf fmt a := by
  refine ⟨?_, ?_, ?_, ?_⟩
  · simp [NewLogger, Logger.Printf, emitTo_open]
  · simp [NewLogger, Logger.Printf]
  · simp [NewLogger, Logger.Errorf, emitTo_open]
  · show sprintfChars (("%v" ++ fmt).data) (x :: a) = x ++ sprintfChars fmt.data a
    rw [String.data_append]
    rfl

end Embedlog
